import Mathlib

set_option autoImplicit false

/-! Shallow embedding of the helfertool registration core:
`registration/models/job.py` (shift grouping, coordinator counting,
helper/coordinator union, badge-default pre-save hook) and
`registration/views/registration.py` (form, validate views). -/

/-- Shifts expose a `begin` timestamp; `begin.date()` is modelled as the
calendar-day number `begin / 86400` (seconds per day). The `id` field stands
for row identity so that two shifts with equal `begin` stay distinguishable. -/
structure Shift where
  id : Nat
  begin : Nat
deriving DecidableEq

/-- Calendar date of the begin timestamp, as in `shift.begin.date()`. -/
def Shift.date (s : Shift) : Nat :=
  s.begin / 86400

/-- One step of Python's `sorted(l, key=k)` modelled as stable insertion:
the new element goes in front of the first element with a key not smaller
than its own, so earlier input elements with an equal key stay in front. -/
def insertByKey {α : Type} (key : α → Nat) (s : α) : List α → List α
  | [] => [s]
  | a :: l => if key s ≤ key a then s :: a :: l else a :: insertByKey key s l

/-- Python's `sorted(l, key=k)`: the stable ascending sort by `k`. -/
def sortByKey {α : Type} (key : α → Nat) : List α → List α
  | [] => []
  | a :: l => insertByKey key a (sortByKey key l)

/-- One iteration of the grouping loop in `shifts_by_day`:
`tmp_shifts[day].append(shift)` when the day key is present, otherwise
`tmp_shifts[day] = [shift]` adds a fresh bucket (the dict is modelled as an
association list in insertion order). -/
def addShift : List (Nat × List Shift) → Shift → List (Nat × List Shift)
  | [], s => [(s.date, [s])]
  | (d, b) :: rest, s =>
    if s.date = d then (d, b ++ [s]) :: rest else (d, b) :: addShift rest s

/-- The `tmp_shifts` dict after the grouping loop over all shifts. -/
def tmpShifts (shifts : List Shift) : List (Nat × List Shift) :=
  shifts.foldl addShift []

/-- Bucket lookup, `tmp_shifts[day]`. -/
def lookupDay (d : Nat) : List (Nat × List Shift) → Option (List Shift)
  | [] => none
  | (d2, b) :: rest => if d2 = d then some b else lookupDay d rest

/-- Body of `Job.shifts_by_day` after the default-argument substitution:
group the shifts by day, sort the days ascending
(`OrderedDict(sorted(tmp_shifts.items(), key=lambda t: t[0]))`), then sort
each bucket by `begin` (`sorted(ordered_shifts[day], key=lambda s: s.begin)`). -/
def groupShiftsByDay (shifts : List Shift) : List (Nat × List Shift) :=
  (sortByKey Prod.fst (tmpShifts shifts)).map
    (fun p => (p.1, sortByKey Shift.begin p.2))

/-- The slice of a Job used by `shifts_by_day`: its owned shifts
(`self.shift_set.all()`). -/
structure JobS where
  shift_set : List Shift
deriving DecidableEq

/-- Embedding of `Job.shifts_by_day(self, shifts=None)`. The guard
`if not shifts:` tests Python truthiness, so both an absent argument and an
explicitly supplied empty list are replaced by `self.shift_set.all()`. -/
def JobS.shifts_by_day (job : JobS) (shifts : Option (List Shift)) :
    List (Nat × List Shift) :=
  let effective : List Shift :=
    match shifts with
    | none => job.shift_set
    | some l => if l.isEmpty then job.shift_set else l
  groupShiftsByDay effective

/-! Coordinator counting: `Job.num_coordinators` (models/job.py lines 76-81). -/

/-- The slice of an Event used by `num_coordinators`. -/
structure EventJ where
  archived : Bool
deriving DecidableEq

/-- The slice of a Job used by `num_coordinators`: its event, the coordinator
association (helper primary keys; the auto-generated m2m table has one row per
pair) and the frozen snapshot field. -/
structure JobJ where
  event : EventJ
  coordinators : List Nat
  archived_number_coordinators : Int
deriving DecidableEq

/-- Embedding of the `num_coordinators` property: the frozen
`archived_number_coordinators` for an archived event, the live
`coordinators.count()` otherwise. -/
def JobJ.num_coordinators (job : JobJ) : Int :=
  if job.event.archived then job.archived_number_coordinators
  else (job.coordinators.length : Int)

/-! Helper/coordinator union: `Job.helpers_and_coordinators`
(models/job.py lines 96-99). -/

/-- A Helper row as seen by `helpers_and_coordinators`: its primary key and
the jobs of the shifts it holds (one entry per held shift). -/
structure HelperH where
  id : Nat
  shifts : List Nat
deriving DecidableEq

/-- The slice of a Job used by `helpers_and_coordinators`. -/
structure JobH where
  id : Nat
  coordinators : List Nat
deriving DecidableEq

/-- Embedding of
`Helper.objects.filter(shifts__job=self).distinct() | self.coordinators.distinct()`:
the combined queryset yields each Helper row of the table at most once, namely
the rows holding a shift of this job or listed as coordinator. -/
def helpers_and_coordinators (allHelpers : List HelperH) (job : JobH) :
    List Nat :=
  (allHelpers.filter
    (fun h => h.shifts.any (fun j => j == job.id)
      || job.coordinators.any (fun c => c == h.id))).map (fun h => h.id)

/-! Badge-default hook: `job_pre_save` (models/job.py lines 140-152). -/

/-- The slice of a Job instance mutated by the pre-save hook: its
`badge_defaults` reference (a BadgeDefaults primary key, or none). -/
structure JobInstance where
  badge_defaults : Option Nat
deriving DecidableEq

/-- The BadgeDefaults table, abstracted to its row count; the next created
row gets primary key `rows`. -/
structure BadgeStore where
  rows : Nat
deriving DecidableEq

/-- Embedding of the `job_pre_save` signal handler: if badge creation is
enabled on the event and the instance has no badge defaults yet
(`if instance.event.badges and not instance.badge_defaults:`), create and
save one BadgeDefaults row and attach it; otherwise do nothing. -/
def job_pre_save (badges : Bool) (inst : JobInstance) (store : BadgeStore) :
    JobInstance × BadgeStore :=
  if badges && inst.badge_defaults.isNone then
    ({ badge_defaults := some store.rows }, { rows := store.rows + 1 })
  else (inst, store)

/-! Registration workflow: the `form` view
(views/registration.py lines 34-81). -/

/-- The slice of an Event used by the `form` view. -/
structure EventR where
  id : Nat
  url_name : String
  active : Bool
deriving DecidableEq

/-- A Link row: primary key and owning event. -/
structure LinkR where
  pk : Nat
  event : Nat
deriving DecidableEq

/-- The link identifier taken from the URL: either a well-formed primary key
or a malformed value (`Link.objects.get(pk=...)` raises `ValueError`). -/
inductive LinkRef where
  | malformed
  | pk (n : Nat)
deriving DecidableEq

/-- Outcome of `helper.send_mail`: success, `SMTPException`, or any other
exception. -/
inductive MailOutcome where
  | ok
  | smtpError
  | otherError
deriving DecidableEq

/-- Message level of the Django messages framework (only `error` is used). -/
inductive Level where
  | error
deriving DecidableEq

/-- A message recorded via the messages framework. -/
structure Msg where
  level : Level
  text : String
deriving DecidableEq

/-- The message recorded by `messages.error` when sending the mail fails. -/
def mailFailedMsg : Msg :=
  { level := Level.error,
    text := "Sending the mail failed, but the registration was saved." }

/-- The mutable store visible to the `form` view: events, links, saved Helper
rows (primary keys), the next helper primary key, recorded messages. -/
structure DB where
  events : List EventR
  links : List LinkR
  helpers : List Nat
  nextHelperPk : Nat
  messages : List Msg
deriving DecidableEq

/-- One request to the `form` view, with the external collaborators (user
authentication, `event.is_involved`, `form.is_valid`, mail transport)
abstracted to their outcomes. -/
structure Request where
  event_url_name : String
  link_pk : Option LinkRef
  authenticated : Bool
  involved : Bool
  formValid : Bool
  mailOutcome : MailOutcome
deriving DecidableEq

/-- Possible outcomes of the `form` view: the rendered pages, `Http404`, the
redirect to `registered`, or an exception propagating out of the view. -/
inductive HttpResult where
  | notFound
  | invalidLinkPage
  | notActivePage
  | noPermissionPage
  | formPage
  | redirect (event_url_name : String) (helper_pk : Nat)
  | uncaught
deriving DecidableEq

/-- Result of the resolution/permission phase: an early response, or the
resolved event handed to form handling. -/
inductive GateResult where
  | early (r : HttpResult)
  | proceed (event : EventR)
deriving DecidableEq

/-- Lookup `get_object_or_404(Event, url_name=event_url_name)`. -/
def findEvent (db : DB) (name : String) : Option EventR :=
  db.events.find? (fun e => e.url_name == name)

/-- Lookup `Link.objects.get(pk=link_pk)`. -/
def findLink (db : DB) (n : Nat) : Option LinkR :=
  db.links.find? (fun l => l.pk == n)

/-- Resolution and permission phase of the `form` view (lines 35-62): resolve
the event (404 when absent), resolve the link when one was supplied
(`invalid_link` page on `DoesNotExist`/`ValueError`, 404 when the link belongs
to another event), then the permission gate: an inactive event without a link
renders `not_active` for anonymous users and `nopermission` for authenticated
users who are not involved. -/
def gate (db : DB) (req : Request) : GateResult :=
  match findEvent db req.event_url_name with
  | none => GateResult.early HttpResult.notFound
  | some event =>
    match req.link_pk with
    | some LinkRef.malformed => GateResult.early HttpResult.invalidLinkPage
    | some (LinkRef.pk n) =>
      match findLink db n with
      | none => GateResult.early HttpResult.invalidLinkPage
      | some l =>
        if l.event ≠ event.id then GateResult.early HttpResult.notFound
        else GateResult.proceed event
    | none =>
      if !event.active then
        if !req.authenticated then GateResult.early HttpResult.notActivePage
        else if !req.involved then GateResult.early HttpResult.noPermissionPage
        else GateResult.proceed event
      else GateResult.proceed event

/-- Form handling phase (lines 64-81): on a valid form, `form.save()` creates
one Helper row, then `helper.send_mail` runs inside `try ... except
SMTPException`; an SMTP failure records `mailFailedMsg` and the redirect still
happens, any other exception propagates after the save. An invalid form
re-renders the form page without mutating anything. -/
def handleForm (db : DB) (req : Request) (event : EventR) : HttpResult × DB :=
  if req.formValid then
    let pk := db.nextHelperPk
    let db2 : DB := { db with helpers := db.helpers ++ [pk], nextHelperPk := pk + 1 }
    match req.mailOutcome with
    | MailOutcome.ok => (HttpResult.redirect event.url_name pk, db2)
    | MailOutcome.smtpError =>
      (HttpResult.redirect event.url_name pk,
        { db2 with messages := db2.messages ++ [mailFailedMsg] })
    | MailOutcome.otherError => (HttpResult.uncaught, db2)
  else (HttpResult.formPage, db)

/-- The whole `form` view: gate, then form handling. -/
def formView (db : DB) (req : Request) : HttpResult × DB :=
  match gate db req with
  | GateResult.early r => (r, db)
  | GateResult.proceed event => handleForm db req event

/-! Validation: the `validate` view (views/registration.py lines 95-111). -/

/-- The slice of an Event used by `validate`. -/
structure EventV where
  mail_validation : Bool
deriving DecidableEq

/-- The slice of a Helper mutated by `validate`. -/
structure HelperV where
  validated : Bool
deriving DecidableEq

/-- Outcome of the `validate` view: `Http404`, or the rendered page carrying
the `already_validated` flag. -/
inductive ValidateResult where
  | notFound
  | page (already_validated : Bool)
deriving DecidableEq

/-- Embedding of the `validate` view for a helper already resolved under the
event: 404 when `event.mail_validation` is disabled, otherwise remember the
previous `validated` flag, set it to true and save. -/
def validateView (event : EventV) (helper : HelperV) : ValidateResult × HelperV :=
  if !event.mail_validation then (ValidateResult.notFound, helper)
  else (ValidateResult.page helper.validated, { helper with validated := true })

/-! Properties of the stable sort. -/

theorem insertByKey_perm {α : Type} (key : α → Nat) (s : α) (l : List α) :
    List.Perm (insertByKey key s l) (s :: l) := by
  induction l with
  | nil => simp [insertByKey]
  | cons a t ih =>
    simp only [insertByKey]
    split
    · exact List.Perm.refl _
    · exact (List.Perm.cons a ih).trans (List.Perm.swap s a t)

theorem sortByKey_perm {α : Type} (key : α → Nat) (l : List α) :
    List.Perm (sortByKey key l) l := by
  induction l with
  | nil => exact List.Perm.refl _
  | cons a t ih =>
    simp only [sortByKey]
    exact (insertByKey_perm key a (sortByKey key t)).trans (ih.cons a)

theorem insertByKey_pairwise {α : Type} (key : α → Nat) (s : α) {l : List α}
    (h : l.Pairwise (fun a b => key a ≤ key b)) :
    (insertByKey key s l).Pairwise (fun a b => key a ≤ key b) := by
  induction l with
  | nil => simp [insertByKey]
  | cons a t ih =>
    rw [List.pairwise_cons] at h
    simp only [insertByKey]
    split
    · rename_i hle
      rw [List.pairwise_cons]
      refine ⟨?_, List.pairwise_cons.mpr h⟩
      intro x hx
      rcases List.mem_cons.mp hx with rfl | hx
      · exact hle
      · exact Nat.le_trans hle (h.1 x hx)
    · rename_i hgt
      rw [List.pairwise_cons]
      refine ⟨?_, ih h.2⟩
      intro x hx
      rcases List.mem_cons.mp ((insertByKey_perm key s t).mem_iff.mp hx) with rfl | hx
      · exact Nat.le_of_not_le hgt
      · exact h.1 x hx

theorem sortByKey_pairwise {α : Type} (key : α → Nat) (l : List α) :
    (sortByKey key l).Pairwise (fun a b => key a ≤ key b) := by
  induction l with
  | nil => simp [sortByKey]
  | cons a t ih =>
    simp only [sortByKey]
    exact insertByKey_pairwise key a ih

theorem insertByKey_filter {α : Type} (key : α → Nat) (s : α) (l : List α)
    (t : Nat) :
    (insertByKey key s l).filter (fun x => key x == t)
      = if key s = t then s :: l.filter (fun x => key x == t)
        else l.filter (fun x => key x == t) := by
  induction l with
  | nil =>
    simp only [insertByKey]
    by_cases h : key s = t <;> simp [h]
  | cons a u ih =>
    simp only [insertByKey]
    split
    · rw [List.filter_cons]
      by_cases h : key s = t <;> simp [h]
    · rename_i hgt
      have hlt : key a < key s := Nat.lt_of_not_le hgt
      rw [List.filter_cons, List.filter_cons]
      by_cases hs : key s = t
      · by_cases ha : key a = t
        · exact absurd (ha.trans hs.symm) (Nat.ne_of_lt hlt)
        · simp [hs, ha, ih, List.filter_cons]
      · by_cases ha : key a = t <;> simp [hs, ha, ih, List.filter_cons]

theorem sortByKey_filter {α : Type} (key : α → Nat) (l : List α) (t : Nat) :
    (sortByKey key l).filter (fun x => key x == t)
      = l.filter (fun x => key x == t) := by
  induction l with
  | nil => rfl
  | cons a u ih =>
    simp only [sortByKey, insertByKey_filter, ih, List.filter_cons]
    by_cases h : key a = t <;> simp [h]

/-! Properties of the grouping loop. -/

theorem lookupDay_addShift (acc : List (Nat × List Shift)) (s : Shift) (d : Nat) :
    lookupDay d (addShift acc s)
      = if s.date = d then some (((lookupDay d acc).getD []) ++ [s])
        else lookupDay d acc := by
  induction acc with
  | nil =>
    simp only [addShift, lookupDay]
    by_cases h : s.date = d <;> simp [h, lookupDay]
  | cons p rest ih =>
    obtain ⟨d2, b⟩ := p
    simp only [addShift]
    by_cases h1 : s.date = d2
    · by_cases h2 : d2 = d <;> simp [lookupDay, h1, h2]
    · by_cases h2 : d2 = d
      · subst h2
        simp [lookupDay, h1]
      · simp [lookupDay, h1, h2, ih]

theorem lookupDay_foldl (S : List Shift) :
    ∀ (acc : List (Nat × List Shift)) (d : Nat),
    (lookupDay d (S.foldl addShift acc)).getD []
      = ((lookupDay d acc).getD []) ++ S.filter (fun s => s.date == d) := by
  induction S with
  | nil => intro acc d; simp
  | cons s S ih =>
    intro acc d
    rw [List.foldl_cons, ih, lookupDay_addShift]
    by_cases h : s.date = d <;> simp [h, List.filter_cons]

theorem lookupDay_isSome_foldl (S : List Shift) :
    ∀ (acc : List (Nat × List Shift)) (d : Nat),
    (lookupDay d (S.foldl addShift acc)).isSome
      = ((lookupDay d acc).isSome || S.any (fun s => s.date == d)) := by
  induction S with
  | nil => intro acc d; simp
  | cons s S ih =>
    intro acc d
    rw [List.foldl_cons, ih, lookupDay_addShift]
    by_cases h : s.date = d
    · simp [h]
    · have hb : (s.date == d) = false := by simp [h]
      simp [h, hb]

theorem lookupDay_eq_none (d : Nat) (L : List (Nat × List Shift)) :
    lookupDay d L = none ↔ d ∉ L.map Prod.fst := by
  induction L with
  | nil => simp [lookupDay]
  | cons p rest ih =>
    obtain ⟨d2, b⟩ := p
    simp only [lookupDay, List.map_cons, List.mem_cons]
    by_cases h : d2 = d
    · subst h
      simp
    · have h2 : ¬(d = d2) := fun hh => h hh.symm
      simp only [if_neg h, ih]
      constructor
      · intro hn hor
        rcases hor with hor | hor
        · exact h2 hor
        · exact hn hor
      · intro hn hor
        exact hn (Or.inr hor)

theorem keys_addShift (acc : List (Nat × List Shift)) (s : Shift) :
    (addShift acc s).map Prod.fst
      = if (lookupDay s.date acc).isSome then acc.map Prod.fst
        else acc.map Prod.fst ++ [s.date] := by
  induction acc with
  | nil => simp [addShift, lookupDay]
  | cons p rest ih =>
    obtain ⟨d2, b⟩ := p
    simp only [addShift, lookupDay]
    by_cases h1 : s.date = d2
    · subst h1
      simp
    · have h2 : ¬(d2 = s.date) := fun hh => h1 hh.symm
      simp only [if_neg h1, if_neg h2, List.map_cons, ih]
      by_cases h3 : (lookupDay s.date rest).isSome <;> simp [h3]

theorem nodup_keys_addShift (acc : List (Nat × List Shift)) (s : Shift)
    (h : (acc.map Prod.fst).Nodup) : ((addShift acc s).map Prod.fst).Nodup := by
  rw [keys_addShift]
  by_cases h3 : (lookupDay s.date acc).isSome
  · simpa [h3] using h
  · have hnone : lookupDay s.date acc = none := by
      cases heq : lookupDay s.date acc
      · rfl
      · rw [heq] at h3
        simp at h3
    have hnm : s.date ∉ acc.map Prod.fst := (lookupDay_eq_none _ _).mp hnone
    simp [h3, List.nodup_append, h, hnm]

theorem nodup_keys_foldl (S : List Shift) :
    ∀ (acc : List (Nat × List Shift)), (acc.map Prod.fst).Nodup →
    ((S.foldl addShift acc).map Prod.fst).Nodup := by
  induction S with
  | nil => intro acc h; simpa using h
  | cons s S ih =>
    intro acc h
    rw [List.foldl_cons]
    exact ih (addShift acc s) (nodup_keys_addShift acc s h)

theorem lookupDay_of_mem {L : List (Nat × List Shift)}
    (hnd : (L.map Prod.fst).Nodup) {d : Nat} {b : List Shift}
    (hm : (d, b) ∈ L) : lookupDay d L = some b := by
  induction L with
  | nil => cases hm
  | cons p rest ih =>
    obtain ⟨d2, b2⟩ := p
    rw [List.map_cons, List.nodup_cons] at hnd
    rcases List.mem_cons.mp hm with heq | hm2
    · obtain ⟨rfl, rfl⟩ := Prod.mk.injEq .. ▸ heq
      · simp [lookupDay]
    · have hne : d2 ≠ d := by
        intro hh
        subst hh
        exact hnd.1 (List.mem_map.mpr ⟨(d2, b), hm2, rfl⟩)
      simp [lookupDay, hne, ih hnd.2 hm2]

theorem flatten_addShift (acc : List (Nat × List Shift)) (s : Shift) :
    List.Perm ((addShift acc s).map Prod.snd).flatten
      (((acc.map Prod.snd).flatten) ++ [s]) := by
  induction acc with
  | nil => simp [addShift]
  | cons p rest ih =>
    obtain ⟨d2, b⟩ := p
    simp only [addShift]
    by_cases h1 : s.date = d2
    · simp only [if_pos h1, List.map_cons, List.flatten_cons]
      rw [List.append_assoc, List.append_assoc]
      exact List.Perm.append_left b (List.perm_append_comm)
    · simp only [if_neg h1, List.map_cons, List.flatten_cons]
      rw [List.append_assoc]
      exact List.Perm.append_left b ih

theorem flatten_foldl (S : List Shift) :
    ∀ (acc : List (Nat × List Shift)),
    List.Perm ((S.foldl addShift acc).map Prod.snd).flatten
      ((acc.map Prod.snd).flatten ++ S) := by
  induction S with
  | nil => intro acc; simp
  | cons s S ih =>
    intro acc
    rw [List.foldl_cons]
    refine (ih (addShift acc s)).trans ?_
    have h1 := (flatten_addShift acc s).append_right S
    refine h1.trans ?_
    rw [List.append_assoc]
    exact List.Perm.refl _

theorem flatten_tmpShifts (S : List Shift) :
    List.Perm ((tmpShifts S).map Prod.snd).flatten S := by
  simpa [tmpShifts] using flatten_foldl S []

/-! Characterization of `groupShiftsByDay`. -/

theorem keys_groupShiftsByDay (S : List Shift) :
    (groupShiftsByDay S).map Prod.fst
      = (sortByKey Prod.fst (tmpShifts S)).map Prod.fst := by
  simp only [groupShiftsByDay, List.map_map]
  rfl

theorem nodup_keys_tmpShifts (S : List Shift) :
    ((tmpShifts S).map Prod.fst).Nodup :=
  nodup_keys_foldl S [] (by simp)

theorem mem_keys_tmpShifts (S : List Shift) (d : Nat) :
    d ∈ (tmpShifts S).map Prod.fst ↔ ∃ s ∈ S, s.date = d := by
  have h1 : (lookupDay d (tmpShifts S)).isSome = S.any (fun s => s.date == d) := by
    simpa [tmpShifts, lookupDay] using lookupDay_isSome_foldl S [] d
  constructor
  · intro hm
    have hne : lookupDay d (tmpShifts S) ≠ none := by
      intro hn
      exact ((lookupDay_eq_none d (tmpShifts S)).mp hn) hm
    have hany : S.any (fun s => s.date == d) = true := by
      rw [← h1]
      exact Option.isSome_iff_ne_none.mpr hne
    simpa using hany
  · intro hex
    obtain ⟨s, hs, hd⟩ := hex
    have hany : S.any (fun s => s.date == d) = true := by
      simp only [List.any_eq_true]
      exact ⟨s, hs, by simp [hd]⟩
    have hne := Option.isSome_iff_ne_none.mp (h1 ▸ hany)
    by_contra hnot
    exact hne ((lookupDay_eq_none d _).mpr hnot)

theorem mem_keys_groupShiftsByDay (S : List Shift) (d : Nat) :
    d ∈ (groupShiftsByDay S).map Prod.fst ↔ ∃ s ∈ S, s.date = d := by
  rw [keys_groupShiftsByDay, ← mem_keys_tmpShifts]
  exact ((sortByKey_perm Prod.fst (tmpShifts S)).map Prod.fst).mem_iff

theorem pairwise_keys_groupShiftsByDay (S : List Shift) :
    ((groupShiftsByDay S).map Prod.fst).Pairwise (fun a b => a < b) := by
  rw [keys_groupShiftsByDay]
  have hle : ((sortByKey Prod.fst (tmpShifts S)).map Prod.fst).Pairwise
      (fun a b => a ≤ b) :=
    List.pairwise_map.mpr (sortByKey_pairwise Prod.fst (tmpShifts S))
  have hper : List.Perm ((sortByKey Prod.fst (tmpShifts S)).map Prod.fst)
      ((tmpShifts S).map Prod.fst) :=
    (sortByKey_perm Prod.fst (tmpShifts S)).map Prod.fst
  have hnd : ((sortByKey Prod.fst (tmpShifts S)).map Prod.fst).Nodup :=
    hper.nodup_iff.mpr (nodup_keys_tmpShifts S)
  exact (hle.and hnd).imp (fun h => Nat.lt_of_le_of_ne h.1 h.2)

theorem bucket_groupShiftsByDay (S : List Shift) (d : Nat) (b : List Shift)
    (hm : (d, b) ∈ groupShiftsByDay S) :
    b = sortByKey Shift.begin (S.filter (fun s => s.date == d)) := by
  simp only [groupShiftsByDay, List.mem_map] at hm
  obtain ⟨p, hp, heq⟩ := hm
  obtain ⟨d0, b0⟩ := p
  have h1 : d0 = d := congrArg Prod.fst heq
  have h2 : sortByKey Shift.begin b0 = b := congrArg Prod.snd heq
  subst h1
  subst h2
  have hp2 : (d0, b0) ∈ tmpShifts S :=
    (sortByKey_perm Prod.fst (tmpShifts S)).mem_iff.mp hp
  have hl : lookupDay d0 (tmpShifts S) = some b0 :=
    lookupDay_of_mem (nodup_keys_tmpShifts S) hp2
  have hb0 : b0 = S.filter (fun s => s.date == d0) := by
    have := lookupDay_foldl S [] d0
    simp only [tmpShifts] at hl
    rw [hl] at this
    simpa [lookupDay] using this
  rw [hb0]

theorem flatten_groupShiftsByDay (S : List Shift) :
    List.Perm ((groupShiftsByDay S).map Prod.snd).flatten S := by
  have h1 : ((groupShiftsByDay S).map Prod.snd)
      = (sortByKey Prod.fst (tmpShifts S)).map
          (fun p => sortByKey Shift.begin p.2) := by
    simp only [groupShiftsByDay, List.map_map]
    rfl
  rw [h1]
  have h2 : ∀ (L : List (Nat × List Shift)),
      List.Perm (L.map (fun p => sortByKey Shift.begin p.2)).flatten
        ((L.map Prod.snd).flatten) := by
    intro L
    induction L with
    | nil => simp
    | cons p rest ih =>
      simp only [List.map_cons, List.flatten_cons]
      exact (sortByKey_perm Shift.begin p.2).append ih
  refine (h2 _).trans ?_
  have h3 : List.Perm ((sortByKey Prod.fst (tmpShifts S)).map Prod.snd).flatten
      (((tmpShifts S).map Prod.snd).flatten) :=
    ((sortByKey_perm Prod.fst (tmpShifts S)).map Prod.snd).flatten
  exact h3.trans (flatten_tmpShifts S)

/-- C1 (amended): for every nonempty collection S of shifts of one job,
`shifts_by_day(S)` returns a mapping whose keys are exactly the distinct
calendar dates of the shifts' `begin` values, keys in strictly ascending date
order, every bucket holding exactly the shifts of its date in ascending
`begin` order with equal-`begin` shifts in input-relative order, and no shift
omitted or duplicated across buckets. -/
theorem shifts_by_day_grouping_correct (job : JobS) (S : List Shift)
    (hS : S ≠ []) :
    (∀ d, d ∈ (job.shifts_by_day (some S)).map Prod.fst ↔ ∃ s ∈ S, s.date = d)
    ∧ ((job.shifts_by_day (some S)).map Prod.fst).Pairwise (fun a b => a < b)
    ∧ (∀ d b, (d, b) ∈ job.shifts_by_day (some S) →
        (∀ s, s ∈ b → s.date = d)
        ∧ b.Pairwise (fun a c => a.begin ≤ c.begin)
        ∧ (∀ t, b.filter (fun s => s.begin == t)
            = S.filter (fun s => s.date == d && s.begin == t)))
    ∧ List.Perm ((job.shifts_by_day (some S)).map Prod.snd).flatten S := by
  have heff : job.shifts_by_day (some S) = groupShiftsByDay S := by
    cases S with
    | nil => exact absurd rfl hS
    | cons a t => rfl
  rw [heff]
  refine ⟨mem_keys_groupShiftsByDay S, pairwise_keys_groupShiftsByDay S,
    ?_, flatten_groupShiftsByDay S⟩
  intro d b hm
  have hb := bucket_groupShiftsByDay S d b hm
  refine ⟨?_, ?_, ?_⟩
  · intro s hs
    rw [hb] at hs
    have hs2 : s ∈ S.filter (fun s => s.date == d) :=
      (sortByKey_perm Shift.begin _).mem_iff.mp hs
    have := (List.mem_filter.mp hs2).2
    simpa using this
  · rw [hb]
    exact sortByKey_pairwise Shift.begin _
  · intro t
    rw [hb, sortByKey_filter, List.filter_filter]
    refine List.filter_congr ?_
    intro x _
    exact Bool.and_comm (x.date == d) (x.begin == t) ▸ rfl

/-- C1 witness: the grouping property at a concrete one-shift collection. -/
theorem shifts_by_day_grouping_correct_witness :
    (∀ d, d ∈ ((JobS.mk []).shifts_by_day (some [Shift.mk 0 3600])).map Prod.fst
        ↔ ∃ s ∈ [Shift.mk 0 3600], s.date = d)
    ∧ (((JobS.mk []).shifts_by_day (some [Shift.mk 0 3600])).map
        Prod.fst).Pairwise (fun a b => a < b)
    ∧ (∀ d b, (d, b) ∈ (JobS.mk []).shifts_by_day (some [Shift.mk 0 3600]) →
        (∀ s, s ∈ b → s.date = d)
        ∧ b.Pairwise (fun a c => a.begin ≤ c.begin)
        ∧ (∀ t, b.filter (fun s => s.begin == t)
            = [Shift.mk 0 3600].filter (fun s => s.date == d && s.begin == t)))
    ∧ List.Perm (((JobS.mk []).shifts_by_day
        (some [Shift.mk 0 3600])).map Prod.snd).flatten [Shift.mk 0 3600] :=
  shifts_by_day_grouping_correct (JobS.mk []) [Shift.mk 0 3600] (by decide)

/-- C1 counterexample: as stated, the claim fails for the empty collection.
Because `if not shifts:` tests truthiness, passing an explicit empty list
falls back to the job's own shifts, so the returned mapping has a key even
though the supplied collection has no shift dates at all. -/
theorem shifts_by_day_empty_counterexample :
    (JobS.mk [Shift.mk 0 0]).shifts_by_day (some []) = [(0, [Shift.mk 0 0])]
    ∧ ¬ (0 ∈ ((JobS.mk [Shift.mk 0 0]).shifts_by_day (some [])).map Prod.fst
        ↔ ∃ s ∈ ([] : List Shift), s.date = 0) := by
  decide

/-- C9: supplying an explicitly empty shift collection does not yield the
empty mapping: the truthiness test makes the call fall back to all shifts of
the job, and whenever the job owns a shift the result is nonempty. -/
theorem shifts_by_day_empty_arg_fallback (job : JobS) :
    job.shifts_by_day (some []) = job.shifts_by_day none
    ∧ (job.shift_set ≠ [] → job.shifts_by_day (some []) ≠ []) := by
  constructor
  · rfl
  · intro hne hempty
    cases hs : job.shift_set with
    | nil => exact hne hs
    | cons a t =>
      have hmem : a.date ∈ (job.shifts_by_day (some [])).map Prod.fst := by
        have he : job.shifts_by_day (some []) = groupShiftsByDay job.shift_set := rfl
        rw [he, mem_keys_groupShiftsByDay]
        exact ⟨a, by rw [hs]; exact List.mem_cons_self a t, rfl⟩
      rw [hempty] at hmem
      simp at hmem

/-- C9 witness: the fallback behavior at a concrete one-shift job. -/
theorem shifts_by_day_empty_arg_fallback_witness :
    ((JobS.mk [Shift.mk 3 7]).shifts_by_day (some [])
      = (JobS.mk [Shift.mk 3 7]).shifts_by_day none)
    ∧ (JobS.mk [Shift.mk 3 7]).shifts_by_day (some []) ≠ [] :=
  ⟨(shifts_by_day_empty_arg_fallback (JobS.mk [Shift.mk 3 7])).1,
   (shifts_by_day_empty_arg_fallback (JobS.mk [Shift.mk 3 7])).2 (by decide)⟩

/-- C5: under `badges=True` with unset `badge_defaults` the pre-save hook
creates exactly one BadgeDefaults row and attaches it (non-null at commit);
with `badge_defaults` already set it neither creates a row nor overwrites the
value; under `badges=False` it never creates a row. -/
theorem job_pre_save_badge_defaults (inst : JobInstance) (store : BadgeStore)
    (d : Nat) :
    ((job_pre_save true (JobInstance.mk none) store).2.rows = store.rows + 1
      ∧ (job_pre_save true (JobInstance.mk none) store).1.badge_defaults ≠ none)
    ∧ job_pre_save true (JobInstance.mk (some d)) store
        = (JobInstance.mk (some d), store)
    ∧ job_pre_save false inst store = (inst, store) := by
  refine ⟨⟨?_, ?_⟩, ?_, ?_⟩ <;> simp [job_pre_save]

/-- C6: `validate` is a 404 leaving the helper unchanged when
`event.mail_validation` is disabled; when enabled it reports the previous
`validated` flag, persists `validated = true`, and a second call leaves the
state unchanged while reporting the helper as already validated. -/
theorem validate_idempotent (helper : HelperV) :
    validateView (EventV.mk false) helper = (ValidateResult.notFound, helper)
    ∧ (validateView (EventV.mk true) helper).1
        = ValidateResult.page helper.validated
    ∧ (validateView (EventV.mk true) helper).2.validated = true
    ∧ validateView (EventV.mk true) ((validateView (EventV.mk true) helper).2)
        = (ValidateResult.page true, (validateView (EventV.mk true) helper).2) := by
  refine ⟨?_, ?_, ?_, ?_⟩ <;> simp [validateView]

/-- C7: `num_coordinators` is the live `coordinators.count()` when the owning
event is not archived and the frozen `archived_number_coordinators` when it is
archived, so that under an archived event the value does not depend on the
coordinators association at all. -/
theorem num_coordinators_frozen (job : JobJ) (coords2 : List Nat) :
    job.num_coordinators
      = (if job.event.archived then job.archived_number_coordinators
         else (job.coordinators.length : Int))
    ∧ (JobJ.mk (EventJ.mk true) coords2
        job.archived_number_coordinators).num_coordinators
      = job.archived_number_coordinators := by
  refine ⟨rfl, ?_⟩
  simp [JobJ.num_coordinators]

/-- C8: `helpers_and_coordinators` returns the union of the job's shift
holders and coordinators, each qualifying helper row appearing exactly once,
and contains nothing else. -/
theorem helpers_and_coordinators_union (allHelpers : List HelperH) (job : JobH)
    (hnd : (allHelpers.map (fun h => h.id)).Nodup) :
    (∀ h ∈ allHelpers,
      (job.id ∈ h.shifts ∨ h.id ∈ job.coordinators) →
      (helpers_and_coordinators allHelpers job).count h.id = 1)
    ∧ (∀ x ∈ helpers_and_coordinators allHelpers job,
      ∃ h ∈ allHelpers, h.id = x
        ∧ (job.id ∈ h.shifts ∨ h.id ∈ job.coordinators)) := by
  have hres : (helpers_and_coordinators allHelpers job).Nodup := by
    refine List.Nodup.sublist ?_ hnd
    exact List.Sublist.map (fun h => h.id) (List.filter_sublist allHelpers)
  constructor
  · intro h hh hq
    refine List.count_eq_one_of_mem hres ?_
    refine List.mem_map.mpr ⟨h, ?_, rfl⟩
    refine List.mem_filter.mpr ⟨hh, ?_⟩
    rcases hq with hq | hq
    · simp only [Bool.or_eq_true, List.any_eq_true]
      exact Or.inl ⟨job.id, hq, by simp⟩
    · simp only [Bool.or_eq_true, List.any_eq_true]
      exact Or.inr ⟨h.id, hq, by simp⟩
  · intro x hx
    obtain ⟨h, hh, rfl⟩ := List.mem_map.mp hx
    have hf := List.mem_filter.mp hh
    refine ⟨h, hf.1, rfl, ?_⟩
    have := hf.2
    simp only [Bool.or_eq_true, List.any_eq_true, beq_iff_eq] at this
    rcases this with ⟨j, hj, rfl⟩ | ⟨c, hc, rfl⟩
    · exact Or.inl hj
    · exact Or.inr hc

/-- C8 witness: the union property at a concrete helper table where one
helper both coordinates and holds a shift of the job. -/
theorem helpers_and_coordinators_union_witness :
    (∀ h ∈ [HelperH.mk 1 [5, 5], HelperH.mk 2 [], HelperH.mk 3 [4]],
      ((JobH.mk 5 [1, 2]).id ∈ h.shifts ∨ h.id ∈ (JobH.mk 5 [1, 2]).coordinators) →
      (helpers_and_coordinators
        [HelperH.mk 1 [5, 5], HelperH.mk 2 [], HelperH.mk 3 [4]]
        (JobH.mk 5 [1, 2])).count h.id = 1)
    ∧ (∀ x ∈ helpers_and_coordinators
        [HelperH.mk 1 [5, 5], HelperH.mk 2 [], HelperH.mk 3 [4]]
        (JobH.mk 5 [1, 2]),
      ∃ h ∈ [HelperH.mk 1 [5, 5], HelperH.mk 2 [], HelperH.mk 3 [4]],
        h.id = x ∧ ((JobH.mk 5 [1, 2]).id ∈ h.shifts
          ∨ h.id ∈ (JobH.mk 5 [1, 2]).coordinators)) :=
  helpers_and_coordinators_union
    [HelperH.mk 1 [5, 5], HelperH.mk 2 [], HelperH.mk 3 [4]]
    (JobH.mk 5 [1, 2]) (by decide)

/-- C2: when a submission passes validation and is saved and the mail send
raises `SMTPException`, the new Helper row still exists, the response is still
the redirect to `registered` for that helper, and an error-level message about
the mail failure is recorded. -/
theorem form_mail_failure_keeps_registration {db : DB} {req : Request}
    {event : EventR} (hg : gate db req = GateResult.proceed event)
    (hv : req.formValid = true) (hm : req.mailOutcome = MailOutcome.smtpError) :
    (formView db req).1 = HttpResult.redirect event.url_name db.nextHelperPk
    ∧ db.nextHelperPk ∈ (formView db req).2.helpers
    ∧ mailFailedMsg ∈ (formView db req).2.messages
    ∧ mailFailedMsg.level = Level.error := by
  have hfv : formView db req = handleForm db req event := by
    simp [formView, hg]
  rw [hfv]
  simp [handleForm, hv, hm, mailFailedMsg]

/-- C2 witness: the mail-failure policy at a concrete active event. -/
theorem form_mail_failure_keeps_registration_witness :
    (formView (DB.mk [EventR.mk 1 "e" true] [] [] 0 [])
      (Request.mk "e" none false false true MailOutcome.smtpError)).1
      = HttpResult.redirect "e" 0
    ∧ 0 ∈ (formView (DB.mk [EventR.mk 1 "e" true] [] [] 0 [])
      (Request.mk "e" none false false true MailOutcome.smtpError)).2.helpers
    ∧ mailFailedMsg ∈ (formView (DB.mk [EventR.mk 1 "e" true] [] [] 0 [])
      (Request.mk "e" none false false true MailOutcome.smtpError)).2.messages
    ∧ mailFailedMsg.level = Level.error :=
  @form_mail_failure_keeps_registration (DB.mk [EventR.mk 1 "e" true] [] [] 0 [])
    (Request.mk "e" none false false true MailOutcome.smtpError)
    (EventR.mk 1 "e" true) (by decide) rfl rfl

/-- C3: with the event resolved and no link supplied, an inactive event gives
the `not_active` page to anonymous users and the `nopermission` page to
authenticated but uninvolved users; an active event, or a valid link for this
event, proceeds to form handling regardless of authentication. -/
theorem form_permission_gate {db : DB} {req : Request} {event : EventR}
    (he : findEvent db req.event_url_name = some event) :
    (req.link_pk = none → event.active = false → req.authenticated = false →
      formView db req = (HttpResult.notActivePage, db))
    ∧ (req.link_pk = none → event.active = false → req.authenticated = true →
        req.involved = false →
      formView db req = (HttpResult.noPermissionPage, db))
    ∧ (req.link_pk = none → event.active = true →
      gate db req = GateResult.proceed event)
    ∧ (∀ n l, req.link_pk = some (LinkRef.pk n) → findLink db n = some l →
        l.event = event.id → gate db req = GateResult.proceed event) := by
  refine ⟨?_, ?_, ?_, ?_⟩
  · intro h1 h2 h3
    simp [formView, gate, he, h1, h2, h3]
  · intro h1 h2 h3 h4
    simp [formView, gate, he, h1, h2, h3, h4]
  · intro h1 h2
    simp [gate, he, h1, h2]
  · intro n l h1 h2 h3
    simp [gate, he, h1, h2, h3]

/-- C3 witness: the four gate outcomes at concrete events and requests. -/
theorem form_permission_gate_witness :
    formView (DB.mk [EventR.mk 1 "e" false] [] [] 0 [])
        (Request.mk "e" none false false false MailOutcome.ok)
      = (HttpResult.notActivePage, DB.mk [EventR.mk 1 "e" false] [] [] 0 [])
    ∧ formView (DB.mk [EventR.mk 1 "e" false] [] [] 0 [])
        (Request.mk "e" none true false false MailOutcome.ok)
      = (HttpResult.noPermissionPage, DB.mk [EventR.mk 1 "e" false] [] [] 0 [])
    ∧ gate (DB.mk [EventR.mk 1 "e" true] [] [] 0 [])
        (Request.mk "e" none false false false MailOutcome.ok)
      = GateResult.proceed (EventR.mk 1 "e" true)
    ∧ gate (DB.mk [EventR.mk 1 "e" false] [LinkR.mk 7 1] [] 0 [])
        (Request.mk "e" (some (LinkRef.pk 7)) false false false MailOutcome.ok)
      = GateResult.proceed (EventR.mk 1 "e" false) :=
  ⟨(@form_permission_gate (DB.mk [EventR.mk 1 "e" false] [] [] 0 [])
      (Request.mk "e" none false false false MailOutcome.ok)
      (EventR.mk 1 "e" false) (by decide)).1 rfl rfl rfl,
   (@form_permission_gate (DB.mk [EventR.mk 1 "e" false] [] [] 0 [])
      (Request.mk "e" none true false false MailOutcome.ok)
      (EventR.mk 1 "e" false) (by decide)).2.1 rfl rfl rfl rfl,
   (@form_permission_gate (DB.mk [EventR.mk 1 "e" true] [] [] 0 [])
      (Request.mk "e" none false false false MailOutcome.ok)
      (EventR.mk 1 "e" true) (by decide)).2.2.1 rfl rfl,
   (@form_permission_gate (DB.mk [EventR.mk 1 "e" false] [LinkR.mk 7 1] [] 0 [])
      (Request.mk "e" (some (LinkRef.pk 7)) false false false MailOutcome.ok)
      (EventR.mk 1 "e" false) (by decide)).2.2.2
      7 (LinkR.mk 7 1) rfl (by decide) rfl⟩

/-- C4: with the event resolved, a malformed or unknown link identifier
renders the `invalid_link` page (soft failure), while a link that exists but
belongs to a different event raises `Http404`. -/
theorem form_link_errors {db : DB} {req : Request} {event : EventR}
    (he : findEvent db req.event_url_name = some event) :
    (req.link_pk = some LinkRef.malformed →
      formView db req = (HttpResult.invalidLinkPage, db))
    ∧ (∀ n, req.link_pk = some (LinkRef.pk n) → findLink db n = none →
      formView db req = (HttpResult.invalidLinkPage, db))
    ∧ (∀ n l, req.link_pk = some (LinkRef.pk n) → findLink db n = some l →
        l.event ≠ event.id →
      formView db req = (HttpResult.notFound, db)) := by
  refine ⟨?_, ?_, ?_⟩
  · intro h1
    simp [formView, gate, he, h1]
  · intro n h1 h2
    simp [formView, gate, he, h1, h2]
  · intro n l h1 h2 h3
    simp [formView, gate, he, h1, h2, h3]

/-- C4 witness: the three link-error outcomes at concrete links. -/
theorem form_link_errors_witness :
    formView (DB.mk [EventR.mk 1 "e" true] [] [] 0 [])
        (Request.mk "e" (some LinkRef.malformed) false false false MailOutcome.ok)
      = (HttpResult.invalidLinkPage, DB.mk [EventR.mk 1 "e" true] [] [] 0 [])
    ∧ formView (DB.mk [EventR.mk 1 "e" true] [] [] 0 [])
        (Request.mk "e" (some (LinkRef.pk 9)) false false false MailOutcome.ok)
      = (HttpResult.invalidLinkPage, DB.mk [EventR.mk 1 "e" true] [] [] 0 [])
    ∧ formView (DB.mk [EventR.mk 1 "e" true] [LinkR.mk 9 2] [] 0 [])
        (Request.mk "e" (some (LinkRef.pk 9)) false false false MailOutcome.ok)
      = (HttpResult.notFound, DB.mk [EventR.mk 1 "e" true] [LinkR.mk 9 2] [] 0 []) :=
  ⟨(@form_link_errors (DB.mk [EventR.mk 1 "e" true] [] [] 0 [])
      (Request.mk "e" (some LinkRef.malformed) false false false MailOutcome.ok)
      (EventR.mk 1 "e" true) (by decide)).1 rfl,
   (@form_link_errors (DB.mk [EventR.mk 1 "e" true] [] [] 0 [])
      (Request.mk "e" (some (LinkRef.pk 9)) false false false MailOutcome.ok)
      (EventR.mk 1 "e" true) (by decide)).2.1 9 rfl (by decide),
   (@form_link_errors (DB.mk [EventR.mk 1 "e" true] [LinkR.mk 9 2] [] 0 [])
      (Request.mk "e" (some (LinkRef.pk 9)) false false false MailOutcome.ok)
      (EventR.mk 1 "e" true) (by decide)).2.2
      9 (LinkR.mk 9 2) rfl (by decide) (by decide)⟩

/-- C10: only `SMTPException` is caught around the confirmation-mail send:
any other exception propagates out of the view after the Helper was saved, so
the registration persists but neither the redirect nor the mail-failure
warning is produced. -/
theorem form_other_exception_propagates {db : DB} {req : Request}
    {event : EventR} (hg : gate db req = GateResult.proceed event)
    (hv : req.formValid = true) (hm : req.mailOutcome = MailOutcome.otherError) :
    (formView db req).1 = HttpResult.uncaught
    ∧ db.nextHelperPk ∈ (formView db req).2.helpers
    ∧ (formView db req).2.messages = db.messages := by
  have hfv : formView db req = handleForm db req event := by
    simp [formView, hg]
  rw [hfv]
  simp [handleForm, hv, hm]

/-- C10 witness: a non-SMTP mail exception at a concrete active event. -/
theorem form_other_exception_propagates_witness :
    (formView (DB.mk [EventR.mk 1 "e" true] [] [] 0 [])
      (Request.mk "e" none false false true MailOutcome.otherError)).1
      = HttpResult.uncaught
    ∧ 0 ∈ (formView (DB.mk [EventR.mk 1 "e" true] [] [] 0 [])
      (Request.mk "e" none false false true MailOutcome.otherError)).2.helpers
    ∧ (formView (DB.mk [EventR.mk 1 "e" true] [] [] 0 [])
      (Request.mk "e" none false false true MailOutcome.otherError)).2.messages
      = (DB.mk [EventR.mk 1 "e" true] [] [] 0 []).messages :=
  @form_other_exception_propagates (DB.mk [EventR.mk 1 "e" true] [] [] 0 [])
    (Request.mk "e" none false false true MailOutcome.otherError)
    (EventR.mk 1 "e" true) (by decide) rfl rfl
